import Mathlib

/-!
Verification of the asset-pipeline orchestrator in `src/build/assets.js`.

Strings are modelled as `List Char` (`"…".data`); filesystem paths as lists of
`/`-separated segments (`List (List Char)`), since the source only manipulates
whole segments (`path.basename`, `path.dirname`, `path.join`, `path.extname`).
JavaScript `String.prototype.replace` with a string pattern (or a regex without
the `g` flag) rewrites only the FIRST occurrence of the pattern; `replaceFirst`
below models that.  External collaborators (sass, esbuild, glob, `textHash`,
the markdown transform) enter the model as parameters or oracle inputs.
-/

-- ---------------------------------------------------------------------------
-- Generic substring machinery over `List Char`

/-- Does `pat` occur as a contiguous substring of `l`?  (JS `includes`.) -/
def containsSub : List Char → List Char → Bool
  | [], pat => pat.isEmpty
  | c :: rest, pat => pat.isPrefixOf (c :: rest) || containsSub rest pat

/-- JS `str.replace(pat, rep)` with a plain-string (or non-global regex)
pattern: rewrite only the first occurrence of `pat`, leave the rest alone. -/
def replaceFirst (pat rep : List Char) : List Char → List Char
  | [] => []
  | c :: rest =>
    if pat.isPrefixOf (c :: rest) then rep ++ (c :: rest).drop pat.length
    else c :: replaceFirst pat rep rest

/-- Pattern `pat` has no nontrivial border: no proper nonempty suffix of `pat` is also
a prefix of `pat`.  All literals replaced by the source (`".ts"`, `".js"`,
`"/icons.svg"`) are border-free, which makes first-occurrence reasoning easy. -/
def noBorder (pat : List Char) : Bool :=
  (List.range pat.length).all fun k =>
    k == 0 || decide (pat.drop k ≠ pat.take (pat.length - k))

-- ---------------------------------------------------------------------------
-- `basename` and `getAssetFiles` (assets.js lines 222-249)

/-- Suffix of `l` starting at its last `'.'`, or `[]` when `l` has no dot. -/
def lastDotSuffix : List Char → List Char
  | [] => []
  | c :: rest =>
    if c = '.' then (if lastDotSuffix rest = [] then c :: rest else lastDotSuffix rest)
    else lastDotSuffix rest

/-- Function `path.extname` applied to a single path segment: the extension starts at
the last dot, except that a dot in leading position does not count
(`extname(".foo") = ""`). -/
def extOf : List Char → List Char
  | [] => []
  | _ :: rest => lastDotSuffix rest

/-- Function `basename` from assets.js (lines 223-228): the final segment of the path,
except that `/a/b/c/index.x` resolves to `c.x`.  `path.basename` is the last
segment, `path.dirname(p).split(path.sep).pop()` the one before it (`"."` when
there is none, as for a bare relative `index.x`). -/
def basename (p : List (List Char)) : List Char :=
  let name := p.getLast?.getD []
  let ext := extOf name
  if "index.".data.isPrefixOf name then (p.dropLast.getLast?.getD ".".data) ++ ext
  else name

/-- One resolved (source, destination) pair produced by `getAssetFiles`.
`fromProject` records provenance (override root vs. studio base root); the
source object `{src, dest}` carries it implicitly through the path prefix. -/
structure AssetFile where
  fromProject : Bool
  src : List (List Char)
  dest : List (List Char)
deriving DecidableEq

/-- Function `getAssetFiles` (assets.js lines 234-249).  Glob expansion is external
(`glob.sync`), so the matches found under each root are inputs: lists of
root-relative paths in segments.  Project (override) matches are named first,
studio (base) matches whose canonical `basename` collides with a project name
are dropped, and the result is studio-kept entries followed by all project
entries, each mapped to `OUTPUT/<basename>`. -/
def getAssetFiles (STUDIO_ASSETS PROJECT_ASSETS OUTPUT : List (List Char))
    (studioMatches projectMatches : List (List (List Char))) : List AssetFile :=
  let projectFiles := projectMatches.map fun c => PROJECT_ASSETS ++ c
  let projectFileNames := projectFiles.map basename
  let studioFiles := (studioMatches.map fun c => STUDIO_ASSETS ++ c).filter
    fun p => !(projectFileNames.contains (basename p))
  (studioFiles.map fun p => AssetFile.mk false p (OUTPUT ++ [basename p])) ++
    (projectFiles.map fun p => AssetFile.mk true p (OUTPUT ++ [basename p]))

-- ---------------------------------------------------------------------------
-- Script post-processing pipeline (assets.js lines 109-142)

/-- The unversioned icon sprite path literal rewritten by line 135. -/
def ICONS_LITERAL : List Char := "/icons.svg".data

/-- JS `String.prototype.trim`: strip whitespace from both ends. -/
def jsTrim (l : List Char) : List Char :=
  ((l.dropWhile Char.isWhitespace).reverse.dropWhile Char.isWhitespace).reverse

/-- Remainder of the input after the first `*/`, if any. -/
def findCommentClose : List Char → Option (List Char)
  | '*' :: '/' :: rest => some rest
  | _ :: rest => findCommentClose rest
  | [] => none

/-- The regex replace on line 133, `/\/\*![\s\S]*?\*\//g` with `''`: delete
every lazily-matched `/*! … */` block.  A `/*!` with no later `*/` matches
nothing (and then no later `/*!` can match either, so the rest is kept).
The fuel argument only bounds recursion (each step consumes at least one
character, so fuel = input length suffices). -/
def stripBangComments : Nat → List Char → List Char
  | _, [] => []
  | 0, l => l
  | fuel + 1, '/' :: '*' :: '!' :: rest =>
    (match findCommentClose rest with
     | some rem => stripBangComments fuel rem
     | none => '/' :: '*' :: '!' :: rest)
  | fuel + 1, c :: rest => c :: stripBangComments fuel rest

/-- The regex replace on line 134, `/require\(['"]vue['"]\)/g` with
`'window.Vue'`: the two quotes are drawn independently from `['"]`. -/
def fixVue : Nat → List Char → List Char
  | _, [] => []
  | 0, l => l
  | fuel + 1, 'r' :: 'e' :: 'q' :: 'u' :: 'i' :: 'r' :: 'e' :: '(' :: q1 :: 'v' :: 'u' :: 'e' :: q2 :: ')' :: rest =>
    if (q1 = '\'' || q1 = '"') && (q2 = '\'' || q2 = '"') then
      "window.Vue".data ++ fixVue fuel rest
    else
      'r' :: fixVue fuel ('e' :: 'q' :: 'u' :: 'i' :: 'r' :: 'e' :: '(' :: q1 :: 'v' :: 'u' :: 'e' :: q2 :: ')' :: rest)
  | fuel + 1, c :: rest => c :: fixVue fuel rest

/-- Character class `[\w\s:]` of the localisation-key regex on line 138. -/
def isKeyChar (c : Char) : Bool :=
  c.isAlphanum || c = '_' || c = ' ' || c = '\t' || c = '\n' || c = '\r' || c = ':'

/-- Scan a maximal run of key characters and require a closing pair of angle
brackets right after it; `'>'` is not a key character, so the greedy run of
the regex never backtracks. -/
def scanKey : List Char → Option (List Char × List Char)
  | '>' :: '>' :: rest => some ([], rest)
  | c :: rest =>
    if isKeyChar c then (scanKey rest).map fun p => (c :: p.1, p.2)
    else none
  | [] => none

/-- The regex replace on line 138, replacing each localisation marker (a
nonempty run of key characters between double angle brackets) by
`options.translate?.(locale, str) || str`; the resolved translator (with its
fallback to the raw key) is the parameter `tr`. -/
def translateKeys (tr : List Char → List Char) : Nat → List Char → List Char
  | _, [] => []
  | 0, l => l
  | fuel + 1, '<' :: '<' :: rest =>
    (match scanKey rest with
     | some (key, rem) =>
       if key = [] then '<' :: translateKeys tr fuel ('<' :: rest)
       else tr key ++ translateKeys tr fuel rem
     | none => '<' :: translateKeys tr fuel ('<' :: rest))
  | fuel + 1, c :: rest => c :: translateKeys tr fuel rest

/-- Line 135: `.replace(/\/icons\.svg/, iconsPath)` — the regex has no `g`
flag, so only the first occurrence of the unversioned icon path is rewritten
to the currently published `iconsPath`. -/
def iconCacheBust (iconsPath text : List Char) : List Char :=
  replaceFirst ICONS_LITERAL iconsPath text

/-- Lines 132-138: the text written for one locale, as a function of the raw
esbuild bundle text (external input), the currently published icon path, and
the resolved translator. -/
def scriptOutputText (iconsPath : List Char) (tr : List Char → List Char)
    (raw : List Char) : List Char :=
  let t0 := jsTrim raw
  let t1 := stripBangComments t0.length t0
  let t2 := fixVue t1.length t1
  let t3 := iconCacheBust iconsPath t2
  translateKeys tr t3.length t3

/-- Lines 109-141: the list of destination files written by `bundleScripts`,
in loop order.  A `.ts` destination is renamed to `.js` (first occurrence,
line 110), declaration files produce nothing (line 111), and each non-default
locale inserts `.{locale}` at the first occurrence of `.js` (line 140). -/
def bundleScriptsDests (srcPath destPath : List Char)
    (locales : List (List Char)) : List (List Char) :=
  let destPath := if ".ts".data.isSuffixOf destPath then
      replaceFirst ".ts".data ".js".data destPath
    else destPath
  if ".d.ts".data.isSuffixOf srcPath then []
  else locales.map fun locale =>
    if locale = "en".data then destPath
    else replaceFirst ".js".data (".".data ++ locale ++ ".js".data) destPath

-- ---------------------------------------------------------------------------
-- Icon sprite stage (assets.js lines 180-197)

/-- Pre-publish value of the module-level `iconsPath` (line 180). -/
def iconsPathInit : List Char := "/icons.svg".data

/-- Lines 185-187: one icon file's content turned into a `<symbol>`: the first
occurrence of the xmlns attribute is deleted, then `<svg ` becomes
`<symbol id="…" ` and `</svg>` becomes `</symbol>` (all first-occurrence
string replaces).  `id` is `path.basename(src, '.svg')`. -/
def assembleIcon (id content : List Char) : List Char :=
  replaceFirst "</svg>".data "</symbol>".data
    (replaceFirst "<svg ".data ("<symbol id=\"".data ++ id ++ "\" ".data)
      (replaceFirst " xmlns=\"http://www.w3.org/2000/svg\"".data [] content))

/-- Line 190: the fully assembled sprite document. -/
def spriteSymbols (icons : List (List Char × List Char)) : List Char :=
  "<?xml version=\"1.0\" encoding=\"UTF-8\"?><!DOCTYPE svg PUBLIC \"-//W3C//DTD SVG 1.1//EN\" \"http://www.w3.org/Graphics/SVG/1.1/DTD/svg11.dtd\"><svg xmlns=\"http://www.w3.org/2000/svg\" xmlns:xlink=\"http://www.w3.org/1999/xlink\">".data
    ++ (icons.map fun p => assembleIcon p.1 p.2).flatten
    ++ "</svg>".data

/-- Lines 182-196 as a transition on the published `iconsPath` value.
`textHash` lives in `utilities.js` (not under src/); modelled from the spec as
an opaque hash-function parameter whose output is truncated to 8 characters
(`.slice(0, 8)`, line 192).  Reading the icon files is external I/O: a failed
run (caught by `buildAssets`, line 255) never reaches the assignment on line
193, so the published value is unchanged. -/
def iconStage (textHash : List Char → List Char)
    (iconsRes : Except String (List (List Char × List Char)))
    (current : List Char) : List Char :=
  match iconsRes with
  | Except.error _ => current
  | Except.ok icons =>
    "/icons.".data ++ (textHash (spriteSymbols icons)).take 8 ++ ".svg".data

-- ---------------------------------------------------------------------------
-- Sitemap (assets.js lines 208-216)

/-- Fixed per-URL metadata (line 211). -/
def SITEMAP_OPTIONS : List Char :=
  "<changefreq>weekly</changefreq><priority>1.0</priority>".data

/-- One `<url>` element of the sitemap (line 213). -/
def sitemapEntry (domain url : List Char) : List Char :=
  "<url><loc>https://".data ++ domain ++ url ++ "</loc>".data
    ++ SITEMAP_OPTIONS ++ "</url>".data

/-- Line 212: the URL list fed to the sitemap — a plain concatenation of the
root path, the course URLs accumulated by the markdown stage (the set
`COURSE_URLS` lives in markdown.js, so its enumeration is an input here), the
statically configured `CONFIG.sitemap` extras, and the caller-supplied
`URLs`.  No deduplication happens anywhere on this line. -/
def sitemapURLList (courseURLs sitemapConfig extraURLs : List (List Char)) :
    List (List Char) :=
  ["/".data] ++ courseURLs ++ sitemapConfig ++ extraURLs

/-- Lines 211-214: the full sitemap document text. -/
def createSitemap (domain : List Char)
    (courseURLs sitemapConfig extraURLs : List (List Char)) : List Char :=
  "<?xml version=\"1.0\" encoding=\"UTF-8\"?><urlset xmlns=\"http://www.sitemaps.org/schemas/sitemap/0.9\">".data
    ++ ((sitemapURLList courseURLs sitemapConfig extraURLs).map
        (sitemapEntry domain)).flatten
    ++ "</urlset>".data

-- ---------------------------------------------------------------------------
-- Watch-mode registrations (assets.js lines 75-78 and 144-149)

/-- One watch registration: the unit's identity (its source path) together
with the dependency paths handed to `watchFiles`. -/
structure WatchReg where
  unit : List Char
  deps : List (List Char)
deriving DecidableEq

/-- Modelled from the spec: `watchFiles` (utilities.js, which is not under
src/) registers the given dependency paths so that a change under any of them
re-invokes the given unit's rebuild closure, independently of every other
registration.  Its effect on the registration state is appending one entry. -/
def watchFiles (regs : List WatchReg) (unit : List Char)
    (deps : List (List Char)) : List WatchReg :=
  regs ++ [WatchReg.mk unit deps]

/-- Registration effect of `bundleStyles(srcPath, …, watch)` (lines 75-78):
`files` is `output.stats.includedFiles` from sass; when `watch` is set the
unit is registered, otherwise the registration state is untouched. -/
def bundleStylesRegs (srcPath : List Char) (files : List (List Char))
    (watch : Bool) (regs : List WatchReg) : List WatchReg :=
  if watch then watchFiles regs srcPath files else regs

/-- Registration effect of `bundleScripts(srcPath, …, watch, options)`
(lines 144-149): `files` is derived from the esbuild metafile; when `watch`
is set the unit is registered. -/
def bundleScriptsRegs (srcPath : List Char) (files : List (List Char))
    (watch : Bool) (regs : List WatchReg) : List WatchReg :=
  if watch then watchFiles regs srcPath files else regs

/-- The rebuild closure registered on line 76 is
`() => bundleStyles(srcPath, destPath, minify)` — it passes no `watch`
argument, so the recursive run uses `watch = false` on the dependency set it
newly computes. -/
def rebuildStyleUnit (srcPath : List Char) (newFiles : List (List Char))
    (regs : List WatchReg) : List WatchReg :=
  bundleStylesRegs srcPath newFiles false regs

/-- The rebuild closure registered on line 147 is
`() => bundleScripts(srcPath, destPath, minify, false, options)` — it passes
`watch = false` explicitly. -/
def rebuildScriptUnit (srcPath : List Char) (newFiles : List (List Char))
    (regs : List WatchReg) : List WatchReg :=
  bundleScriptsRegs srcPath newFiles false regs

/-- Modelled from the spec: what claim C3 asserts a rebuild does — re-register
the unit, replacing its previous dependency set and touching no other unit's
registration. -/
def replaceRegistration (regs : List WatchReg) (unit : List Char)
    (deps : List (List Char)) : List WatchReg :=
  regs.map fun r => if r.unit = unit then WatchReg.mk unit deps else r

-- ---------------------------------------------------------------------------
-- Course stage trace and sitemap ordering (assets.js lines 281-291)

/-- Events of the course-content stage: a (course, locale) document build
starting, that build settling (success or caught failure), and the sitemap
stage running. -/
inductive CourseEv where
  | buildStart (id locale : List Char)
  | buildDone (id locale : List Char)
  | sitemapRun
deriving DecidableEq

/-- The event trace of lines 283-291: the nested `for` loops await each
`bundleMarkdown(id, locale, …)` (with its `.catch`) to settle before starting
the next one, and `createSitemap` runs after the loops. -/
def courseStageTrace (courses locales : List (List Char)) : List CourseEv :=
  (courses.flatMap fun id => locales.flatMap fun locale =>
    [CourseEv.buildStart id locale, CourseEv.buildDone id locale])
    ++ [CourseEv.sitemapRun]

/-- A trace is strictly sequential when every build that starts settles
before anything else happens: builds never overlap. -/
def strictlySequential : List CourseEv → Bool
  | [] => true
  | CourseEv.sitemapRun :: rest => strictlySequential rest
  | CourseEv.buildStart i l :: CourseEv.buildDone i' l' :: rest =>
    i == i' && (l == l') && strictlySequential rest
  | _ => false

/-- Projection extracting the (course, locale) pair of a build start. -/
def startOf : CourseEv → Option (List Char × List Char)
  | CourseEv.buildStart i l => some (i, l)
  | _ => none

-- ---------------------------------------------------------------------------
-- `buildAssets` error-propagation model (assets.js lines 251-292)

/-- Outcomes of all external work during one `buildAssets` run: one
`Except`-valued result per unit-level task.  Each top-level list entry is a
(source identity, transform outcome) pair. -/
structure BuildOracle where
  icon : Except String Unit
  scripts : List (List Char × Except String Unit)
  polyfill : Except String Unit
  styles : List (List Char × Except String Unit)
  courseScripts : List (List Char × Except String Unit)
  courseStyles : List (List Char × Except String Unit)
  markdown : List ((List Char × List Char) × Except String Unit)
  sitemap : Except String Unit

/-- What `error(id)` (utilities.js) leaves behind for a failed unit, and
`success(id, ms)` for a completed one: a per-unit report tagged with the
unit's source identity. -/
inductive BuildLog where
  | succeeded (id : List Char)
  | failed (id : List Char) (err : String)
deriving DecidableEq

/-- Wrapper `promise.catch(error(id))`: a settled task, never a propagating error. -/
def caught (id : List Char) (r : Except String Unit) : BuildLog :=
  match r with
  | Except.ok _ => BuildLog.succeeded id
  | Except.error e => BuildLog.failed id e

/-- A unit-level task with its `.catch(error(id))` wrapper attached: the
result is always `ok`, whatever the transform outcome was. -/
def runCaught (id : List Char) (r : Except String Unit) :
    Except String BuildLog :=
  Except.ok (caught id r)

/-- One stage group of caught tasks, joined like `Promise.all`: an error in
any member would propagate (that is what an uncaught rejection would do), but
every member is caught, so the join always succeeds. -/
def runUnits : List (List Char × Except String Unit) →
    Except String (List BuildLog)
  | [] => Except.ok []
  | p :: rest =>
    match runCaught p.1 p.2 with
    | Except.error e => Except.error e
    | Except.ok x =>
      match runUnits rest with
      | Except.error e => Except.error e
      | Except.ok xs => Except.ok (x :: xs)

/-- Identity string used by line 286's `.catch(error(...))`. -/
def courseLogId (id locale : List Char) : List Char :=
  "course ".data ++ id ++ " [".data ++ locale ++ "]".data

/-- The course loop with each iteration's `.catch` (lines 284-288). -/
def runCourses : List ((List Char × List Char) × Except String Unit) →
    Except String (List BuildLog)
  | [] => Except.ok []
  | p :: rest =>
    match runCaught (courseLogId p.1.1 p.1.2) p.2 with
    | Except.error e => Except.error e
    | Except.ok x =>
      match runCourses rest with
      | Except.error e => Except.error e
      | Except.ok xs => Except.ok (x :: xs)

/-- Line 259: `.d.ts` sources are skipped when enumerating top-level script
units. -/
def topLevelScriptUnits (scripts : List (List Char × Except String Unit)) :
    List (List Char × Except String Unit) :=
  scripts.filter fun p => !(".d.ts".data.isSuffixOf p.1)

/-- The reports of one stage group of caught unit tasks. -/
def unitLogs (l : List (List Char × Except String Unit)) : List BuildLog :=
  l.map fun p => caught p.1 p.2

/-- The per-unit reports of one complete `buildAssets` run, in stage order,
with the sitemap report last. -/
def preLogs (o : BuildOracle) : List BuildLog :=
  caught "icons.svg".data o.icon
    :: (unitLogs (topLevelScriptUnits o.scripts)
      ++ [caught "polyfill.js".data o.polyfill]
      ++ unitLogs o.styles
      ++ unitLogs o.courseScripts
      ++ unitLogs o.courseStyles
      ++ o.markdown.map fun p => caught (courseLogId p.1.1 p.1.2) p.2)

/-- All reports of one run, sitemap included. -/
def buildLogs (o : BuildOracle) : List BuildLog :=
  preLogs o ++ [caught "sitemap.xml".data o.sitemap]

/-- Function `buildAssets` (lines 251-292) as a composition in the `Except` monad: an
uncaught unit failure would short-circuit the whole run (the promise would
reject), but every unit-level task is wrapped in `.catch(error(id))` before
being joined, so no failure escapes. -/
def buildAssetsRun (o : BuildOracle) : Except String (List BuildLog) :=
  Except.bind (runCaught "icons.svg".data o.icon) fun licon =>
  Except.bind (runUnits (topLevelScriptUnits o.scripts)) fun lscripts =>
  Except.bind (runCaught "polyfill.js".data o.polyfill) fun lpoly =>
  Except.bind (runUnits o.styles) fun lstyles =>
  Except.bind (runUnits o.courseScripts) fun lcscripts =>
  Except.bind (runUnits o.courseStyles) fun lcstyles =>
  Except.bind (runCourses o.markdown) fun lmd =>
  Except.bind (runCaught "sitemap.xml".data o.sitemap) fun lsitemap =>
  Except.ok (licon :: (lscripts ++ [lpoly] ++ lstyles ++ lcscripts
    ++ lcstyles ++ lmd) ++ [lsitemap])


/-- A concrete oracle: one run in which one style unit fails and everything
else succeeds. -/
def sampleOracle : BuildOracle :=
  { icon := Except.ok ()
    scripts := [("app.ts".data, Except.ok ())]
    polyfill := Except.ok ()
    styles := [("a.scss".data, Except.error "sass failure"),
               ("b.scss".data, Except.ok ())]
    courseScripts := []
    courseStyles := []
    markdown := [(("circles".data, "en".data), Except.ok ())]
    sitemap := Except.ok () }

-- ---------------------------------------------------------------------------
-- Generic lemmas about substring search and first-occurrence replacement

theorem containsSub_cons (c : Char) (rest pat : List Char) :
    containsSub (c :: rest) pat
      = (pat.isPrefixOf (c :: rest) || containsSub rest pat) := rfl

theorem replaceFirst_cons (pat rep : List Char) (c : Char) (rest : List Char) :
    replaceFirst pat rep (c :: rest)
      = if pat.isPrefixOf (c :: rest) then rep ++ (c :: rest).drop pat.length
        else c :: replaceFirst pat rep rest := rfl

theorem prefix_of_isPrefixOf {l₁ l₂ : List Char} (h : l₁.isPrefixOf l₂ = true) :
    l₁ <+: l₂ := List.isPrefixOf_iff_prefix.mp h

theorem isPrefixOf_intro {l₁ l₂ : List Char} (h : l₁ <+: l₂) :
    l₁.isPrefixOf l₂ = true := List.isPrefixOf_iff_prefix.mpr h

/-- A prefix that fits inside the left part of an append is a prefix of it. -/
theorem prefix_append_short {pat L X : List Char} (h : pat <+: L ++ X)
    (hlen : pat.length ≤ L.length) : pat <+: L := by
  have h2 := List.prefix_iff_eq_take.mp h
  rw [List.take_append_eq_append_take, Nat.sub_eq_zero_of_le hlen,
    List.take_zero, List.append_nil] at h2
  exact h2 ▸ List.take_prefix _ _

/-- If `pat` occurs as a prefix of `L ++ pat ++ X` strictly inside `L`'s
span (that is, `L` is shorter than `pat`), then `pat` has a border of width
`pat.length - L.length`. -/
theorem border_of_short_overlap {pat L X : List Char}
    (h : pat <+: L ++ (pat ++ X)) (hlt : L.length < pat.length) :
    pat.drop L.length = pat.take (pat.length - L.length) := by
  have h2 := List.prefix_iff_eq_take.mp h
  rw [List.take_append_eq_append_take,
    List.take_of_length_le (Nat.le_of_lt hlt),
    List.take_append_eq_append_take,
    Nat.sub_eq_zero_of_le (Nat.sub_le _ _), List.take_zero,
    List.append_nil] at h2
  calc pat.drop L.length
      = (L ++ pat.take (pat.length - L.length)).drop L.length := by rw [← h2]
    _ = pat.take (pat.length - L.length) := List.drop_left _ _

theorem noBorder_spec {pat : List Char} (h : noBorder pat = true) {k : Nat}
    (hk0 : k ≠ 0) (hk : k < pat.length) :
    pat.drop k ≠ pat.take (pat.length - k) := by
  have h2 := List.all_eq_true.mp h k (List.mem_range.mpr hk)
  cases k with
  | zero => exact absurd rfl hk0
  | succ n =>
    simp only [Bool.or_eq_true, beq_iff_eq, decide_eq_true_eq] at h2
    rcases h2 with h2 | h2
    · exact absurd h2 (Nat.succ_ne_zero n)
    · exact h2

/-- Key lemma: replacing the first occurrence of a border-free pattern in
`A ++ pat ++ s`, where `A` is occurrence-free, rewrites exactly the marked
occurrence. -/
theorem replaceFirst_append (pat rep s : List Char)
    (hnb : noBorder pat = true) (hpat : pat ≠ []) :
    ∀ A : List Char, containsSub A pat = false →
      replaceFirst pat rep (A ++ (pat ++ s)) = A ++ (rep ++ s) := by
  intro A
  induction A with
  | nil =>
    intro _
    rw [List.nil_append, List.nil_append]
    cases hp : pat with
    | nil => exact absurd hp hpat
    | cons p pt =>
      have h1 : (p :: pt) ++ s = p :: (pt ++ s) := rfl
      rw [h1, replaceFirst_cons, ← h1,
        if_pos (isPrefixOf_intro (List.prefix_append (p :: pt) s)),
        List.drop_left]
  | cons a A' ih =>
    intro hA
    rw [containsSub_cons, Bool.or_eq_false_iff] at hA
    rw [List.cons_append, replaceFirst_cons]
    have hnp : ¬(pat.isPrefixOf (a :: (A' ++ (pat ++ s))) = true) := by
      intro hyes
      have hpre := prefix_of_isPrefixOf hyes
      have hform : a :: (A' ++ (pat ++ s)) = (a :: A') ++ (pat ++ s) := rfl
      rw [hform] at hpre
      rcases le_or_lt pat.length (a :: A').length with hle | hgt
      · have := isPrefixOf_intro (prefix_append_short hpre hle)
        rw [hA.1] at this
        exact Bool.false_ne_true this
      · exact noBorder_spec hnb (Nat.succ_ne_zero _) hgt
          (border_of_short_overlap hpre hgt)
    rw [if_neg hnp, ih hA.2, List.cons_append]

/-- With no occurrence at all, the replacement is the identity. -/
theorem replaceFirst_of_not_contains (pat rep : List Char) :
    ∀ l, containsSub l pat = false → replaceFirst pat rep l = l := by
  intro l
  induction l with
  | nil => intro _; rfl
  | cons c rest ih =>
    intro h
    rw [containsSub_cons, Bool.or_eq_false_iff] at h
    rw [replaceFirst_cons, if_neg (by simp [h.1]), ih h.2]

/-- Replacing a pattern by itself changes nothing. -/
theorem replaceFirst_self (pat : List Char) :
    ∀ l, replaceFirst pat pat l = l := by
  intro l
  induction l with
  | nil => rfl
  | cons c rest ih =>
    rw [replaceFirst_cons]
    by_cases hp : pat.isPrefixOf (c :: rest) = true
    · rw [if_pos hp]
      exact List.prefix_iff_eq_append.mp (prefix_of_isPrefixOf hp)
    · rw [if_neg hp, ih]

/-- An occurrence in the right part of an append is an occurrence. -/
theorem containsSub_append_right (pat s : List Char)
    (h : containsSub s pat = true) :
    ∀ x : List Char, containsSub (x ++ s) pat = true := by
  intro x
  induction x with
  | nil => exact h
  | cons c x' ih =>
    rw [List.cons_append, containsSub_cons, ih, Bool.or_true]

/-- Appending on the left preserves being a suffix: `s.isSuffixOf (l ++ s)`. -/
theorem isSuffixOf_append (s l : List Char) : s.isSuffixOf (l ++ s) = true := by
  unfold List.isSuffixOf
  rw [List.reverse_append]
  exact isPrefixOf_intro (List.prefix_append _ _)

-- ---------------------------------------------------------------------------
-- C1: icon path substitution in script output

/-- C1, counterexample: the claim says that once the icon stage has published
a hash, the script-stage output text contains no occurrence of the literal
`/icons.svg`.  False: line 135's regex has no `g` flag, so with a published
path and a bundle text holding two occurrences, the written output still
contains the unversioned literal. -/
theorem c1_counterexample :
    containsSub
      (scriptOutputText
        (iconStage (fun _ => "abcd1234ef".data) (Except.ok []) iconsPathInit)
        (fun k => k)
        "x.src=\"/icons.svg\";y.src=\"/icons.svg\";".data)
      ICONS_LITERAL = true := by decide

/-- C1 (amended): at the moment the script transform runs, exactly the FIRST
occurrence of `/icons.svg` in the bundled text is rewritten to the currently
published path; occurrences after the first are left unchanged, so they
survive into the output. -/
theorem c1_first_occurrence (iconsPath p s : List Char)
    (hp : containsSub p ICONS_LITERAL = false) :
    iconCacheBust iconsPath (p ++ (ICONS_LITERAL ++ s)) = p ++ (iconsPath ++ s)
    ∧ (containsSub s ICONS_LITERAL = true →
        containsSub (iconCacheBust iconsPath (p ++ (ICONS_LITERAL ++ s)))
          ICONS_LITERAL = true) := by
  have h1 : iconCacheBust iconsPath (p ++ (ICONS_LITERAL ++ s))
      = p ++ (iconsPath ++ s) :=
    replaceFirst_append ICONS_LITERAL iconsPath s (by decide) (by decide) p hp
  refine ⟨h1, fun hs => ?_⟩
  rw [h1]
  exact containsSub_append_right ICONS_LITERAL (iconsPath ++ s)
    (containsSub_append_right ICONS_LITERAL s hs iconsPath) p

/-- C1, witness for the amended statement at a concrete input. -/
theorem c1_witness :
    containsSub "var a;".data ICONS_LITERAL = false
    ∧ iconCacheBust "/icons.abcd1234.svg".data
        ("var a;".data ++ (ICONS_LITERAL ++ ";b".data))
      = "var a;".data ++ ("/icons.abcd1234.svg".data ++ ";b".data) :=
  ⟨by decide, (c1_first_occurrence "/icons.abcd1234.svg".data "var a;".data
      ";b".data (by decide)).1⟩

-- ---------------------------------------------------------------------------
-- C9: icon path lifecycle

/-- C9: before the icon stage runs the published path is the unversioned
`/icons.svg`; a successful stage publishes `/icons.<hash>.svg` with the hash
of the fully assembled sprite content truncated to 8 characters; a failed
stage leaves the value unchanged, and the script transform then substitutes
the unversioned literal for itself — scripts fall back to referencing
`/icons.svg`, no error is raised. -/
theorem c9_icon_path_lifecycle (textHash : List Char → List Char)
    (icons : List (List Char × List Char)) (e : String) (text : List Char) :
    iconsPathInit = "/icons.svg".data
    ∧ iconStage textHash (Except.ok icons) iconsPathInit
        = "/icons.".data ++ (textHash (spriteSymbols icons)).take 8 ++ ".svg".data
    ∧ iconStage textHash (Except.error e) iconsPathInit = iconsPathInit
    ∧ iconCacheBust iconsPathInit text = text := by
  refine ⟨rfl, rfl, rfl, ?_⟩
  have h : iconsPathInit = ICONS_LITERAL := rfl
  rw [iconCacheBust, h]
  exact replaceFirst_self ICONS_LITERAL text

-- ---------------------------------------------------------------------------
-- C10: TypeScript declaration files never produce a bundle

/-- C10: a `.d.ts` source makes `bundleScripts` return before writing any
file for any locale, and `buildAssets` also skips such files when
enumerating top-level script units. -/
theorem c10_declaration_files_skipped (srcPath destPath : List Char)
    (locales : List (List Char))
    (scripts : List (List Char × Except String Unit)) (r : Except String Unit)
    (h : ".d.ts".data.isSuffixOf srcPath = true) :
    bundleScriptsDests srcPath destPath locales = []
    ∧ (srcPath, r) ∉ topLevelScriptUnits scripts := by
  constructor
  · simp [bundleScriptsDests, h]
  · intro hmem
    have h2 := (List.mem_filter.mp hmem).2
    simp [h] at h2

/-- C10, witness at a concrete declaration file. -/
theorem c10_witness :
    ".d.ts".data.isSuffixOf "types.d.ts".data = true
    ∧ bundleScriptsDests "types.d.ts".data "types.d.ts".data ["en".data] = [] :=
  ⟨by decide, (c10_declaration_files_skipped "types.d.ts".data
      "types.d.ts".data ["en".data] [] (Except.ok ()) (by decide)).1⟩

-- ---------------------------------------------------------------------------
-- C4: locale fan-out of script units

/-- C4: for a script unit whose destination name carries its `.ts` extension
as its only `.ts`/`.js` fragment, and a duplicate-free requested locale list
containing the default `en`, `bundleScripts` writes exactly one file per
locale: the default locale keeps the (extension-rewritten) destination name
and every other locale gets `.{locale}` inserted immediately before the
`.js` extension; all names are distinct. -/
theorem c4_locale_fanout (srcPath b : List Char) (locales : List (List Char))
    (hsrc : ".d.ts".data.isSuffixOf srcPath = false)
    (hts : containsSub b ".ts".data = false)
    (hjs : containsSub b ".js".data = false)
    (hnd : locales.Nodup) (hen : "en".data ∈ locales) :
    bundleScriptsDests srcPath (b ++ ".ts".data) locales
      = locales.map (fun locale => if locale = "en".data then b ++ ".js".data
          else b ++ (".".data ++ locale ++ ".js".data))
    ∧ (bundleScriptsDests srcPath (b ++ ".ts".data) locales).length
        = locales.length
    ∧ (bundleScriptsDests srcPath (b ++ ".ts".data) locales).Nodup := by
  have hre : replaceFirst ".ts".data ".js".data (b ++ ".ts".data)
      = b ++ ".js".data := by
    have h := replaceFirst_append ".ts".data ".js".data [] (by decide)
      (by decide) b hts
    simpa using h
  have hloc : ∀ locale : List Char,
      replaceFirst ".js".data (".".data ++ locale ++ ".js".data)
        (b ++ ".js".data) = b ++ (".".data ++ locale ++ ".js".data) := by
    intro locale
    have h := replaceFirst_append ".js".data
      (".".data ++ locale ++ ".js".data) [] (by decide) (by decide) b hjs
    simpa using h
  have hmain : bundleScriptsDests srcPath (b ++ ".ts".data) locales
      = locales.map (fun locale => if locale = "en".data then b ++ ".js".data
          else b ++ (".".data ++ locale ++ ".js".data)) := by
    simp only [bundleScriptsDests, isSuffixOf_append, if_true, hre, hsrc,
      Bool.false_eq_true, if_false]
    exact List.map_congr_left fun locale _ => by
      by_cases hl : locale = "en".data
      · simp [hl]
      · simp only [if_neg hl]
        exact hloc locale
  refine ⟨hmain, by rw [hmain, List.length_map], ?_⟩
  rw [hmain]
  refine hnd.map_on ?_
  intro x _ y _ hxy
  by_cases hxe : x = "en".data <;> by_cases hye : y = "en".data
  · exact hxe.trans hye.symm
  · exfalso
    rw [if_pos hxe, if_neg hye] at hxy
    have h1 : ".js".data = ".".data ++ y ++ ".js".data :=
      List.append_cancel_left hxy
    have hlen := congrArg List.length h1
    rw [List.length_append, List.length_append] at hlen
    have e3 : (".js".data).length = 3 := rfl
    have e1 : (".".data).length = 1 := rfl
    omega
  · exfalso
    rw [if_neg hxe, if_pos hye] at hxy
    have h1 : ".".data ++ x ++ ".js".data = ".js".data :=
      List.append_cancel_left hxy
    have hlen := congrArg List.length h1
    rw [List.length_append, List.length_append] at hlen
    have e3 : (".js".data).length = 3 := rfl
    have e1 : (".".data).length = 1 := rfl
    omega
  · rw [if_neg hxe, if_neg hye] at hxy
    have h1 : ".".data ++ x ++ ".js".data = ".".data ++ y ++ ".js".data :=
      List.append_cancel_left hxy
    have h2 : ".".data ++ x = ".".data ++ y := List.append_cancel_right h1
    exact List.append_cancel_left h2

/-- C4, witness: two locales including the default give two distinct files. -/
theorem c4_witness :
    containsSub "out/app".data ".ts".data = false
    ∧ (bundleScriptsDests "src/app.ts".data ("out/app".data ++ ".ts".data)
        ["en".data, "fr".data]).length = 2 :=
  ⟨by decide, ((c4_locale_fanout "src/app.ts".data "out/app".data
      ["en".data, "fr".data] (by decide) (by decide) (by decide) (by decide)
      (by decide)).2.1).trans rfl⟩

-- ---------------------------------------------------------------------------
-- C3: watch-mode rebuilds and registrations

/-- C3, counterexample: the claim says a rebuild re-registers the unit with
its newly computed dependency set, replacing the previous one.  False: the
rebuild closures pass `watch = false` (lines 76 and 147), so a rebuild that
computes a new dependency set leaves the registration state exactly as it
was — which differs from the claimed replace-and-update state. -/
theorem c3_counterexample :
    rebuildStyleUnit "a.scss".data ["a.scss".data, "b.scss".data]
        [WatchReg.mk "a.scss".data ["a.scss".data]]
      = [WatchReg.mk "a.scss".data ["a.scss".data]]
    ∧ rebuildStyleUnit "a.scss".data ["a.scss".data, "b.scss".data]
        [WatchReg.mk "a.scss".data ["a.scss".data]]
      ≠ replaceRegistration [WatchReg.mk "a.scss".data ["a.scss".data]]
          "a.scss".data ["a.scss".data, "b.scss".data] := by
  exact ⟨by decide, by decide⟩

/-- C3 (amended): a rebuild triggered by a change event re-runs the transform
with watching disabled, so it does not re-register the unit at all — the
previously registered dependency set stays in force unchanged, and the
registration of every other unit is untouched as well; only an initial run
with `watch` set appends a registration (leaving existing ones intact). -/
theorem c3_no_reregistration (srcPath : List Char)
    (newFiles : List (List Char)) (regs : List WatchReg) :
    rebuildStyleUnit srcPath newFiles regs = regs
    ∧ rebuildScriptUnit srcPath newFiles regs = regs
    ∧ bundleStylesRegs srcPath newFiles true regs
        = regs ++ [WatchReg.mk srcPath newFiles]
    ∧ bundleScriptsRegs srcPath newFiles true regs
        = regs ++ [WatchReg.mk srcPath newFiles] :=
  ⟨rfl, rfl, rfl, rfl⟩

-- ---------------------------------------------------------------------------
-- C6: strict sequencing of the course stage, sitemap last

theorem strictlySequential_pair (i l : List Char) (rest : List CourseEv) :
    strictlySequential
        (CourseEv.buildStart i l :: CourseEv.buildDone i l :: rest)
      = strictlySequential rest := by
  simp [strictlySequential]

theorem strictlySequential_locales (i : List Char) :
    ∀ (ls : List (List Char)) (rest : List CourseEv),
      strictlySequential rest = true →
      strictlySequential ((ls.flatMap fun l =>
        [CourseEv.buildStart i l, CourseEv.buildDone i l]) ++ rest) = true := by
  intro ls
  induction ls with
  | nil => intro rest h; simpa using h
  | cons l ls ih =>
    intro rest h
    rw [List.flatMap_cons, List.append_assoc]
    show strictlySequential (CourseEv.buildStart i l ::
      CourseEv.buildDone i l :: ((ls.flatMap fun l =>
        [CourseEv.buildStart i l, CourseEv.buildDone i l]) ++ rest)) = true
    rw [strictlySequential_pair]
    exact ih rest h

theorem strictlySequential_courses (ls : List (List Char)) :
    ∀ (cs : List (List Char)) (rest : List CourseEv),
      strictlySequential rest = true →
      strictlySequential ((cs.flatMap fun i => ls.flatMap fun l =>
        [CourseEv.buildStart i l, CourseEv.buildDone i l]) ++ rest) = true := by
  intro cs
  induction cs with
  | nil => intro rest h; simpa using h
  | cons c cs ih =>
    intro rest h
    rw [List.flatMap_cons, List.append_assoc]
    exact strictlySequential_locales c ls _ (ih rest h)

theorem sitemapRun_not_mem (cs ls : List (List Char)) :
    CourseEv.sitemapRun ∉ (cs.flatMap fun i => ls.flatMap fun l =>
      [CourseEv.buildStart i l, CourseEv.buildDone i l]) := by
  simp [List.mem_flatMap]

theorem filterMap_startOf_locales (c : List Char) :
    ∀ ls : List (List Char),
      List.filterMap startOf (ls.flatMap fun l =>
        [CourseEv.buildStart c l, CourseEv.buildDone c l])
      = ls.map fun l => (c, l) := by
  intro ls
  induction ls with
  | nil => rfl
  | cons l ls ih =>
    rw [List.flatMap_cons, List.filterMap_append, ih, List.map_cons]
    rfl

theorem courseTrace_starts (cs ls : List (List Char)) :
    (courseStageTrace cs ls).filterMap startOf
      = cs.flatMap fun i => ls.map fun l => (i, l) := by
  unfold courseStageTrace
  rw [List.filterMap_append]
  have h2 : List.filterMap startOf [CourseEv.sitemapRun] = [] := rfl
  rw [h2, List.append_nil]
  induction cs with
  | nil => rfl
  | cons c cs ih =>
    rw [List.flatMap_cons, List.flatMap_cons, List.filterMap_append, ih,
      filterMap_startOf_locales]

/-- C6: the course-content stage is strictly sequential — its trace is an
alternation of build-start and matching build-settled events, one (course,
locale) pair at a time, iterating courses outermost and locales innermost in
order — and the sitemap runs exactly once, strictly after every course build
has settled (it is the final event of the trace). -/
theorem c6_course_stage_sequential (cs ls : List (List Char)) :
    strictlySequential (courseStageTrace cs ls) = true
    ∧ (courseStageTrace cs ls).getLast? = some CourseEv.sitemapRun
    ∧ (courseStageTrace cs ls).count CourseEv.sitemapRun = 1
    ∧ (courseStageTrace cs ls).filterMap startOf
        = cs.flatMap fun i => ls.map fun l => (i, l) := by
  refine ⟨?_, ?_, ?_, courseTrace_starts cs ls⟩
  · exact strictlySequential_courses ls cs [CourseEv.sitemapRun] rfl
  · exact List.getLast?_concat _
  · unfold courseStageTrace
    rw [List.count_append, List.count_eq_zero.mpr (sitemapRun_not_mem cs ls)]
    rfl

-- ---------------------------------------------------------------------------
-- C5: per-unit failure isolation in buildAssets

theorem runUnits_ok (l : List (List Char × Except String Unit)) :
    runUnits l = Except.ok (unitLogs l) := by
  induction l with
  | nil => rfl
  | cons p rest ih => simp [runUnits, runCaught, unitLogs, ih]

theorem runCourses_ok
    (l : List ((List Char × List Char) × Except String Unit)) :
    runCourses l
      = Except.ok (l.map fun p => caught (courseLogId p.1.1 p.1.2) p.2) := by
  induction l with
  | nil => rfl
  | cons p rest ih => simp [runCourses, runCaught, ih]

/-- C5: whatever mix of unit successes and failures the run produces,
`buildAssets` completes without an escaping error and returns the full log:
every unit's task is caught and reported with its source identity (here shown
for an arbitrary style unit of the run), siblings are all still reported, and
the sitemap stage still runs — its report is the final one. -/
theorem c5_failure_isolation (o : BuildOracle) (u : List Char)
    (r : Except String Unit) (h : (u, r) ∈ o.styles) :
    buildAssetsRun o = Except.ok (buildLogs o)
    ∧ caught u r ∈ buildLogs o
    ∧ (buildLogs o).getLast? = some (caught "sitemap.xml".data o.sitemap) := by
  refine ⟨?_, ?_, List.getLast?_concat _⟩
  · simp [buildAssetsRun, runUnits_ok, runCourses_ok, runCaught, Except.bind,
      buildLogs, preLogs, unitLogs]
  · have hm : caught u r ∈ unitLogs o.styles := List.mem_map.mpr ⟨(u, r), h, rfl⟩
    simp only [buildLogs, preLogs, List.mem_append, List.mem_cons]
    tauto

/-- C5, witness: the sample run with one failed style unit. -/
theorem c5_witness :
    (("a.scss".data, (Except.error "sass failure" : Except String Unit))
        ∈ sampleOracle.styles)
    ∧ buildAssetsRun sampleOracle = Except.ok (buildLogs sampleOracle)
    ∧ BuildLog.failed "a.scss".data "sass failure" ∈ buildLogs sampleOracle := by
  have h : ("a.scss".data, (Except.error "sass failure" : Except String Unit))
      ∈ sampleOracle.styles := by simp [sampleOracle]
  have hc := c5_failure_isolation sampleOracle "a.scss".data
    (Except.error "sass failure") h
  exact ⟨h, hc.1, hc.2.1⟩

-- ---------------------------------------------------------------------------
-- C7: sitemap contents

theorem sitemapEntry_injective (domain : List Char) :
    Function.Injective (sitemapEntry domain) := by
  intro u v h
  unfold sitemapEntry at h
  have h1 := List.append_cancel_right h
  have h2 := List.append_cancel_right h1
  have h3 := List.append_cancel_right h2
  exact List.append_cancel_left h3

theorem count_map_inj (f : List Char → List Char) (hf : Function.Injective f)
    (a : List Char) : ∀ l : List (List Char),
    (l.map f).count (f a) = l.count a := by
  intro l
  induction l with
  | nil => rfl
  | cons b l ih =>
    rw [List.map_cons, List.count_cons, List.count_cons, ih]
    by_cases hb : b = a
    · simp [hb]
    · have hfb : ¬ (f b = f a) := fun e => hb (hf e)
      simp [hb, hfb]

/-- C7, counterexample: the claim says the sitemap entries are the union of
the URL sources, each distinct URL appearing once.  False: line 212 just
concatenates the sources without deduplication, so a caller-supplied extra
URL equal to the root path `/` yields two identical entries. -/
theorem c7_counterexample :
    ((sitemapURLList [] [] ["/".data]).map
        (sitemapEntry "example.org".data)).count
      (sitemapEntry "example.org".data "/".data) = 2
    ∧ ¬ ((sitemapURLList [] [] ["/".data]).map
        (sitemapEntry "example.org".data)).Nodup := by
  exact ⟨by decide, by decide⟩

/-- C7 (amended): the sitemap document is the fixed XML header, then one
`<url>` entry per element of the concatenation of the root path `/`, the
accumulated course URLs, the configured extras and the caller-supplied
extras, in that order and with multiplicity (a URL contributed by several
sources appears once per contribution, not once overall), each entry carrying
the same fixed change-frequency and priority metadata; entries correspond
one-to-one to the URL list (counts are preserved). -/
theorem c7_concatenation (domain url : List Char)
    (courseURLs sitemapConfig extraURLs : List (List Char)) :
    createSitemap domain courseURLs sitemapConfig extraURLs
      = "<?xml version=\"1.0\" encoding=\"UTF-8\"?><urlset xmlns=\"http://www.sitemaps.org/schemas/sitemap/0.9\">".data
        ++ ((["/".data] ++ courseURLs ++ sitemapConfig ++ extraURLs).map fun u =>
            "<url><loc>https://".data ++ domain ++ u ++ "</loc>".data
              ++ SITEMAP_OPTIONS ++ "</url>".data).flatten
        ++ "</urlset>".data
    ∧ ((sitemapURLList courseURLs sitemapConfig extraURLs).map
        (sitemapEntry domain)).count (sitemapEntry domain url)
      = (sitemapURLList courseURLs sitemapConfig extraURLs).count url := by
  constructor
  · rfl
  · exact count_map_inj (sitemapEntry domain) (sitemapEntry_injective domain) url _

-- ---------------------------------------------------------------------------
-- C8: index normalization of canonical names

theorem lastDotSuffix_cons (c : Char) (rest : List Char) :
    lastDotSuffix (c :: rest)
      = if c = '.' then
          (if lastDotSuffix rest = [] then c :: rest else lastDotSuffix rest)
        else lastDotSuffix rest := rfl

theorem lastDotSuffix_of_no_dot : ∀ l : List Char, '.' ∉ l →
    lastDotSuffix l = [] := by
  intro l
  induction l with
  | nil => intro _; rfl
  | cons c rest ih =>
    intro h
    rw [List.mem_cons, not_or] at h
    rw [lastDotSuffix_cons, if_neg (fun e => h.1 e.symm), ih h.2]

theorem lastDotSuffix_append_dot (l r : List Char) (hr : '.' ∉ r) :
    lastDotSuffix (l ++ ('.' :: r)) = '.' :: r := by
  induction l with
  | nil =>
    rw [List.nil_append, lastDotSuffix_cons, if_pos rfl,
      lastDotSuffix_of_no_dot r hr, if_pos rfl]
  | cons c l ih =>
    rw [List.cons_append, lastDotSuffix_cons]
    by_cases hc : c = '.'
    · rw [if_pos hc, ih, if_neg (List.cons_ne_nil '.' r)]
    · rw [if_neg hc, ih]

theorem extOf_index (r : List Char) (hr : '.' ∉ r) :
    extOf ("index".data ++ ('.' :: r)) = '.' :: r := by
  show lastDotSuffix ("ndex".data ++ ('.' :: r)) = '.' :: r
  exact lastDotSuffix_append_dot "ndex".data r hr

/-- The index branch of `basename`: a `…/dir/index.<ext>` path canonicalizes
to `dir.<ext>`. -/
theorem basename_index (pre : List (List Char)) (dir r : List Char)
    (hr : '.' ∉ r) :
    basename (pre ++ [dir, "index".data ++ ('.' :: r)]) = dir ++ ('.' :: r) := by
  have h1 : pre ++ [dir, "index".data ++ ('.' :: r)]
      = (pre ++ [dir]) ++ ["index".data ++ ('.' :: r)] :=
    (List.append_assoc pre [dir] _).symm
  rw [basename, h1, List.getLast?_concat, List.dropLast_concat,
    List.getLast?_concat]
  simp only [Option.getD_some]
  rw [if_pos]
  · exact congrArg (fun x => dir ++ x) (extOf_index r hr)
  · exact isPrefixOf_intro ⟨r, rfl⟩

/-- The plain branch of `basename`: any other path keeps its last segment. -/
theorem basename_flat (pre : List (List Char)) (name : List Char)
    (hni : "index.".data.isPrefixOf name = false) :
    basename (pre ++ [name]) = name := by
  rw [basename, List.getLast?_concat]
  simp [hni]

/-- C8: a directory-as-module file `dir/index.x` and a flat file `dir.x` in
the two roots receive the same canonical name `dir.x`, and therefore the
override exclusion filter drops the base-root flat file in favour of the
override-root module: the resolved list holds only the override entry. -/
theorem c8_index_normalization (SA PA OUT : List (List Char))
    (pre : List (List Char)) (dir r : List Char) (hr : '.' ∉ r)
    (hni : "index.".data.isPrefixOf (dir ++ ('.' :: r)) = false) :
    basename (pre ++ [dir, "index".data ++ ('.' :: r)]) = dir ++ ('.' :: r)
    ∧ basename (pre ++ [dir ++ ('.' :: r)]) = dir ++ ('.' :: r)
    ∧ getAssetFiles SA PA OUT [[dir ++ ('.' :: r)]]
        [[dir, "index".data ++ ('.' :: r)]]
      = [AssetFile.mk true (PA ++ [dir, "index".data ++ ('.' :: r)])
          (OUT ++ [dir ++ ('.' :: r)])] := by
  refine ⟨basename_index pre dir r hr,
    basename_flat pre (dir ++ ('.' :: r)) hni, ?_⟩
  have hbp : basename (PA ++ [dir, "index".data ++ ('.' :: r)])
      = dir ++ ('.' :: r) := basename_index PA dir r hr
  have hbs : basename (SA ++ [dir ++ ('.' :: r)]) = dir ++ ('.' :: r) :=
    basename_flat SA (dir ++ ('.' :: r)) hni
  simp only [getAssetFiles, List.map_cons, List.map_nil, List.filter_cons,
    List.filter_nil]
  rw [hbp, hbs]
  simp

/-- C8, witness at `foo/index.x` overriding `foo.x`. -/
theorem c8_witness :
    ('.' ∉ "x".data)
    ∧ basename ([] ++ ["foo".data, "index".data ++ ('.' :: "x".data)])
        = "foo".data ++ ('.' :: "x".data) :=
  ⟨by decide, (c8_index_normalization [] [] [] [] "foo".data "x".data
      (by decide) (by decide)).1⟩

-- ---------------------------------------------------------------------------
-- C2: override precedence and result ordering

/-- C2: when the override (project) root contributes exactly one file with
canonical name `n` and the base (studio) root also has a match with that
name, the resolved list contains exactly one entry with canonical name `n`,
it comes from the project root, and the overall order is the non-overridden
studio matches first followed by all project matches. -/
theorem c2_override_precedence (SA PA OUT : List (List Char))
    (sM pM : List (List (List Char))) (n : List Char)
    (hp : ((pM.map fun c => PA ++ c).map basename).count n = 1)
    (hs : n ∈ (sM.map fun c => SA ++ c).map basename) :
    ((getAssetFiles SA PA OUT sM pM).filter
        (fun e => basename e.src == n)).length = 1
    ∧ ((getAssetFiles SA PA OUT sM pM).filter
        (fun e => basename e.src == n)).all (fun e => e.fromProject) = true
    ∧ getAssetFiles SA PA OUT sM pM
      = ((sM.map fun c => SA ++ c).filter (fun p =>
          !(((pM.map fun c => PA ++ c).map basename).contains (basename p)))).map
            (fun p => AssetFile.mk false p (OUT ++ [basename p]))
        ++ (pM.map fun c => PA ++ c).map
            (fun p => AssetFile.mk true p (OUT ++ [basename p])) := by
  set P := pM.map fun c => PA ++ c with hPdef
  set S := sM.map fun c => SA ++ c with hSdef
  have hres : getAssetFiles SA PA OUT sM pM
      = (S.filter fun p => !((P.map basename).contains (basename p))).map
          (fun p => AssetFile.mk false p (OUT ++ [basename p]))
        ++ P.map (fun p => AssetFile.mk true p (OUT ++ [basename p])) := rfl
  have hn : n ∈ P.map basename := by
    have : 0 < (P.map basename).count n := by rw [hp]; exact Nat.one_pos
    exact List.count_pos_iff.mp this
  have hstudio : (((S.filter fun p =>
        !((P.map basename).contains (basename p))).map
      (fun p => AssetFile.mk false p (OUT ++ [basename p]))).filter
        (fun e => basename e.src == n)) = [] := by
    rw [List.filter_eq_nil_iff]
    intro e he
    rcases List.mem_map.mp he with ⟨p, hpmem, rfl⟩
    rcases List.mem_filter.mp hpmem with ⟨hpS, hkeep⟩
    intro heq
    have hpn : basename p = n := by simpa using heq
    have hc : ((P.map basename).contains (basename p)) = true := by
      rw [hpn]; exact List.elem_iff.mpr hn
    rw [hc] at hkeep
    simp at hkeep
  have hproj : ((P.map fun p =>
        AssetFile.mk true p (OUT ++ [basename p])).filter
      (fun e => basename e.src == n))
      = (P.filter fun p => basename p == n).map
          (fun p => AssetFile.mk true p (OUT ++ [basename p])) := by
    rw [List.filter_map]
    rfl
  have hlen : ((P.filter fun p => basename p == n)).length
      = (P.map basename).count n := by
    rw [List.count_eq_countP, List.countP_map, List.countP_eq_length_filter]
    rfl
  refine ⟨?_, ?_, hres⟩
  · rw [hres, List.filter_append, hstudio, List.nil_append, hproj,
      List.length_map, hlen, hp]
  · rw [hres, List.filter_append, hstudio, List.nil_append, hproj,
      List.all_eq_true]
    intro e he
    rcases List.mem_map.mp he with ⟨p, _, rfl⟩
    rfl

/-- C2, witness: `app.ts` present in both roots resolves to the project copy
alone. -/
theorem c2_witness :
    (((([["app.ts".data]] : List (List (List Char))).map
        fun c => ["proj".data] ++ c).map basename).count "app.ts".data = 1)
    ∧ ((getAssetFiles ["studio".data] ["proj".data] ["out".data]
        [["app.ts".data]] [["app.ts".data]]).filter
          (fun e => basename e.src == "app.ts".data)).length = 1 := by
  refine ⟨by decide, ?_⟩
  exact (c2_override_precedence ["studio".data] ["proj".data] ["out".data]
    [["app.ts".data]] [["app.ts".data]] "app.ts".data (by decide)
    (by decide)).1
